import Mathlib

/-!
Shallow embedding of `src/index.ts` of the merdmaid repository: schema
collection, prompt composition, response cleanup, ERD normalization and
the two-layer change classification pipeline.

JavaScript strings are modelled as `List Char` (sequences of Unicode
scalar values); UTF-8 bytes are modelled as `Nat`.  Effectful steps
(glob resolution, `fs.stat`, `fs.readFile`, the network call) are
modelled by explicit oracle functions returning `Option`, where `none`
stands for a thrown exception or an absent value.
-/

namespace Merdmaid

/-- Whitespace set for the model of JavaScript `String.prototype.trim`:
space, tab, LF, vertical tab, form feed and CR (the ASCII part of the
ECMAScript `WhiteSpace` and `LineTerminator` productions). -/
def isWsChar (c : Char) : Bool :=
  c == ' ' || c == '\t' || c == '\n' || c == '\x0b' || c == '\x0c' || c == '\r'

/-- Model of JavaScript `String.prototype.toLowerCase` restricted to the
ASCII simple case mapping (diagram text is ASCII-centric); this is the
core `Char.toLower`, which maps `A`..`Z` to `a`..`z` and fixes
everything else. -/
def lowerStr (s : List Char) : List Char :=
  s.map Char.toLower

/-- `dropWhile` of whitespace: the left half of `trim`. -/
def trimLeft (s : List Char) : List Char :=
  s.dropWhile isWsChar

/-- Remove trailing whitespace: the right half of `trim`. -/
def trimRight (s : List Char) : List Char :=
  (s.reverse.dropWhile isWsChar).reverse

/-- Model of JavaScript `String.prototype.trim` (both ends). -/
def trim (s : List Char) : List Char :=
  trimRight (trimLeft s)

/-- Model of `String.prototype.split(sep)` for a one-character
separator: `"".split` gives `[""]`, and a trailing separator yields a
trailing empty piece, as in JavaScript. -/
def splitOnChar (sep : Char) : List Char → List (List Char)
  | [] => [[]]
  | c :: rest =>
    if c = sep then [] :: splitOnChar sep rest
    else
      match splitOnChar sep rest with
      | [] => [[c]]
      | l :: ls => (c :: l) :: ls

/-- Model of `Array.prototype.join(sep)`. -/
def joinWith (sep : List Char) : List (List Char) → List Char
  | [] => []
  | [l] => l
  | l :: l2 :: ls => l ++ sep ++ joinWith sep (l2 :: ls)

/-- Join lines with `"\n"`, as in `.join("\n")` of `normalizeERD`. -/
def joinNl (ls : List (List Char)) : List Char :=
  joinWith ['\n'] ls

/-- Model of `s.replace(/\r\n/g, "\n")`: global, non-overlapping,
left-to-right replacement of CRLF by LF. -/
def replCRLF : List Char → List Char
  | [] => []
  | [c] => [c]
  | c1 :: c2 :: rest =>
    if c1 = '\r' ∧ c2 = '\n' then '\n' :: replCRLF rest
    else c1 :: replCRLF (c2 :: rest)

/-- `startsWithL pat s` models `s.startsWith(pat)`. -/
def startsWithL : List Char → List Char → Bool
  | [], _ => true
  | _ :: _, [] => false
  | p :: ps, c :: cs => p == c && startsWithL ps cs

/-- `containsSub pat s` models `s.includes(pat)` (substring test). -/
def containsSub (pat : List Char) : List Char → Bool
  | [] => startsWithL pat []
  | c :: rest => startsWithL pat (c :: rest) || containsSub pat rest

/-- `normalizeERD` from `src/index.ts` lines 109-118: unify CRLF to LF,
split into lines, trim each line, drop empty lines, rejoin with LF and
lower-case the whole text. -/
def normalizeERD (s : List Char) : List Char :=
  lowerStr (joinNl (((splitOnChar '\n' (replCRLF s)).map trim).filter
    (fun l => !l.isEmpty)))

/-- UTF-8 encoding of one Unicode scalar value (1-4 bytes), as performed
by `Buffer.from(s, "utf8")`. -/
def utf8EncodeChar (c : Char) : List Nat :=
  let n := c.toNat
  if n < 0x80 then [n]
  else if n < 0x800 then [0xC0 + n / 64, 0x80 + n % 64]
  else if n < 0x10000 then
    [0xE0 + n / 4096, 0x80 + (n / 64) % 64, 0x80 + n % 64]
  else
    [0xF0 + n / 262144, 0x80 + (n / 4096) % 64, 0x80 + (n / 64) % 64, 0x80 + n % 64]

/-- UTF-8 encoding of a whole string. -/
def utf8Encode (s : List Char) : List Nat :=
  (s.map utf8EncodeChar).flatten

/-- The replacement character U+FFFD emitted for malformed byte
sequences. -/
def replChar : Char := '�'

/-- Continuation byte test `10xxxxxx`. -/
def contB (b : Nat) : Bool := decide (0x80 ≤ b ∧ b < 0xC0)

/-- Valid second byte after a three-byte lead, with the WHATWG boundary
adjustments for `E0` (no overlong forms) and `ED` (no surrogates). -/
def cont3 (b b1 : Nat) : Bool :=
  if b = 0xE0 then decide (0xA0 ≤ b1 ∧ b1 ≤ 0xBF)
  else if b = 0xED then decide (0x80 ≤ b1 ∧ b1 ≤ 0x9F)
  else contB b1

/-- Valid second byte after a four-byte lead, with the WHATWG boundary
adjustments for `F0` (no overlong forms) and `F4` (cap at U+10FFFF). -/
def cont4 (b b1 : Nat) : Bool :=
  if b = 0xF0 then decide (0x90 ≤ b1 ∧ b1 ≤ 0xBF)
  else if b = 0xF4 then decide (0x80 ≤ b1 ∧ b1 ≤ 0x8F)
  else contB b1

/-- WHATWG UTF-8 decoder with replacement, as performed by
`Buffer.prototype.toString("utf8")` in Node: a malformed or truncated
sequence contributes one U+FFFD per maximal subpart, and an incomplete
sequence at the end of the input yields a single U+FFFD. -/
def utf8Decode : List Nat → List Char
  | [] => []
  | b :: rest =>
    if b < 0x80 then Char.ofNat b :: utf8Decode rest
    else if b < 0xC2 then replChar :: utf8Decode rest
    else if b < 0xE0 then
      match rest with
      | [] => [replChar]
      | b1 :: rest1 =>
        if contB b1 then
          Char.ofNat ((b - 0xC0) * 64 + (b1 - 0x80)) :: utf8Decode rest1
        else replChar :: utf8Decode (b1 :: rest1)
    else if b < 0xF0 then
      match rest with
      | [] => [replChar]
      | b1 :: rest1 =>
        if cont3 b b1 then
          match rest1 with
          | [] => [replChar]
          | b2 :: rest2 =>
            if contB b2 then
              Char.ofNat ((b - 0xE0) * 4096 + (b1 - 0x80) * 64 + (b2 - 0x80)) ::
                utf8Decode rest2
            else replChar :: utf8Decode (b2 :: rest2)
        else replChar :: utf8Decode (b1 :: rest1)
    else if b < 0xF5 then
      match rest with
      | [] => [replChar]
      | b1 :: rest1 =>
        if cont4 b b1 then
          match rest1 with
          | [] => [replChar]
          | b2 :: rest2 =>
            if contB b2 then
              match rest2 with
              | [] => [replChar]
              | b3 :: rest3 =>
                if contB b3 then
                  Char.ofNat ((b - 0xF0) * 262144 + (b1 - 0x80) * 4096 +
                      (b2 - 0x80) * 64 + (b3 - 0x80)) :: utf8Decode rest3
                else replChar :: utf8Decode (b3 :: rest3)
            else replChar :: utf8Decode (b2 :: rest2)
        else replChar :: utf8Decode (b1 :: rest1)
    else replChar :: utf8Decode rest

/-- `clampBytes` from `src/index.ts` lines 15-18: return the string
unchanged when its UTF-8 encoding fits in `max` bytes, otherwise decode
the first `max` bytes (`Buffer.subarray(0, max).toString("utf8")`). -/
def clampBytes (s : List Char) (max : Nat) : List Char :=
  if (utf8Encode s).length ≤ max then s
  else utf8Decode ((utf8Encode s).take max)

/-- A collected schema file (`FileBlob` in the source). -/
structure FileBlob where
  path : List Char
  size : Nat
  content : List Char
  deriving DecidableEq

/-- Result of a successful `fs.stat`. -/
structure StatInfo where
  isFile : Bool
  size : Nat
  deriving DecidableEq

/-- `collect` from `src/index.ts` lines 24-37.  The glob resolver and the
filesystem are oracles: `glob` maps the cleaned pattern list to matched
paths; `stat` and `readText` return `none` when the underlying call
throws.  A failing `stat` or read, a non-file, or a file of at least
1,000,000 bytes is skipped; nothing aborts the loop. -/
def collect (globsCSV : List Char)
    (glob : List (List Char) → List (List Char))
    (stat : List Char → Option StatInfo)
    (readText : List Char → Option (List Char)) : List FileBlob :=
  let globs := ((splitOnChar ',' globsCSV).map trim).filter (fun g => !g.isEmpty)
  let paths := glob globs
  paths.filterMap (fun p =>
    match stat p with
    | none => none
    | some st =>
      if st.isFile && decide (st.size < 1000000) then
        match readText p with
        | some c => some ⟨p, st.size, c⟩
        | none => none
      else none)

/-- The canonical primary schema definition path tested by the sort
comparator. -/
def primaryPath : List Char := "db/schema.rb".data

/-- `a.path.includes("db/schema.rb")`. -/
def isPrimary (f : FileBlob) : Bool := containsSub primaryPath f.path

/-- Model of `.sort((a, b) => (a.path.includes("db/schema.rb") ? -1 : 0))`
(line 46).  The comparator is not a consistent ECMAScript comparator
(it answers `-1` for two matching files in either order), so the sort
result is engine-defined; the action runs on Node/V8, whose TimSort
falls back to plain binary insertion (leftmost insertion point) for the
short arrays arising here (fewer than 22 elements).  Under this
comparator the binary search sends a matching pivot to position 0 and a
non-matching pivot to the end of the sorted prefix, which is exactly the
fold below. -/
def sortSchemaFiles (l : List FileBlob) : List FileBlob :=
  l.foldl (fun acc f => if isPrimary f then f :: acc else acc ++ [f]) []

/-- The prompt template up to the repository name (line 54-56). -/
def promptHead : List Char :=
  ("You are a meticulous database reverse-engineer.\n\nRepository: ").data

/-- The fixed prompt body between the repository name and the current
ERD section (lines 58-87 of the template literal). -/
def promptBody : List Char :=
  ("\n\nGOAL:\n- Generate a **Mermaid ER diagram** for the repository’s database and return it ONLY if it differs from the provided ERD.\n\nSTRICT OUTPUT CONTRACT (very important):\n- If the CURRENT_ERD is **semantically equivalent** and only differs by formatting, alignment, whitespace, ordering, or trivial label/style differences, output exactly: NO_CHANGE\n- Otherwise, output **only** a single Mermaid ERD that begins with: erDiagram\n- Do not wrap in backticks. No prose.\n- The given CURRENT_ERD may contain backticks and a mermaid delimiter. DO NOT under any circumstance count this as a difference to yours.\n\nMATERIAL CHANGE RULES (what counts as different):\n- Added/removed entities (tables)\n- Added/removed columns\n- Column type/nullable/default changes\n- Primary/unique/index constraints changed\n- Foreign keys/relationships added/removed\n- Relationship cardinality changed (e.g., one-to-many vs many-to-many)\n- Entity/column rename **only** if schema clearly implies the rename (not just cosmetic)\n\nNORMALIZATION RULES (to ignore cosmetic diffs):\n- Sort entities and attributes alphabetically for stability.\n- Normalize whitespace and indentation.\n- Ignore comment text and layout/alignment differences.\n\nCRITICAL INSTRUCTION:\n- If the CURRENT_ERD is semantically equivalent to the diagram you generate, you must output the literal string: NO_CHANGE.\n- Do NOT regenerate or echo the diagram in this case.\n- Failure to comply will be treated as an error.\n\nCURRENT ERD:\n").data

/-- The fixed text before the clamped schema snippets. -/
def promptSnippets : List Char := ("\n\nSCHEMA SNIPPETS:\n").data

/-- The `current` interpolation (lines 49-51): JavaScript truthiness, so
`null` and the empty string both yield the `(none)` marker. -/
def currentSection : Option (List Char) → List Char
  | none => ("CURRENT_ERD: (none)").data
  | some s =>
    if s.isEmpty then ("CURRENT_ERD: (none)").data
    else ("CURRENT_ERD:\n").data ++ s

/-- The inputs of `buildPrompt` (the `args` object, line 39-43). -/
structure PromptContext where
  repo : List Char
  schemaFiles : List FileBlob
  currentERD : Option (List Char)

/-- The fixed byte budget for schema snippets (line 44). -/
def MAX_SCHEMA_BYTES : Nat := 250000

/-- The delimiter between schema files in the prompt (line 47). -/
def schemaSep : List Char := ("\n\n---\n\n").data

/-- `buildPrompt` from `src/index.ts` lines 39-92: sort the schema
files, concatenate them with path headers and delimiters, clamp to the
byte budget, interpolate into the fixed template and `trim()` the
result.  (The template literal starts and ends with a newline that the
final `trim` removes.) -/
def buildPrompt (ctx : PromptContext) : List Char :=
  let schemaJoined := joinWith schemaSep
    ((sortSchemaFiles ctx.schemaFiles).map
      (fun f => ("# ".data) ++ f.path ++ '\n' :: f.content))
  trim (('\n' :: promptHead) ++ ctx.repo ++ promptBody
    ++ currentSection ctx.currentERD ++ promptSnippets
    ++ clampBytes schemaJoined MAX_SCHEMA_BYTES ++ ['\n'])

/-- The opening code fence with optional language tag. -/
def fenceMermaid : List Char := "```mermaid".data

/-- A bare code fence. -/
def fencePlain : List Char := "```".data

/-- `result.replace(/^```(?:mermaid)?/i, "")`: the greedy alternative
removes a leading fence with its `mermaid` tag case-insensitively,
otherwise a bare leading fence. -/
def stripLeadFence (s : List Char) : List Char :=
  if lowerStr (s.take 10) = fenceMermaid then s.drop 10
  else if s.take 3 = fencePlain then s.drop 3
  else s

/-- `.replace(/```$/i, "")`: remove a fence anchored at the very end
(no `m` flag, so `$` is the end of the string). -/
def stripTrailFence (s : List Char) : List Char :=
  if s.reverse.take 3 = fencePlain.reverse then (s.reverse.drop 3).reverse
  else s

/-- The response cleanup in `callOpenAI` (lines 105-106):
`content?.trim() || ""` followed by fence stripping and a final trim.
`none` models a missing `choices[0].message.content`. -/
def cleanResponse (content : Option (List Char)) : List Char :=
  let text := match content with
    | none => []
    | some c => trim c
  trim (stripTrailFence (stripLeadFence text))

/-- The sentinel, lower-cased. -/
def sentinel : List Char := "no_change".data

/-- The required diagram keyword, lower-cased. -/
def keyword : List Char := "erdiagram".data

/-- Model of `/^no_change$/i.test(result)` (line 144): without the `m`
flag the anchors match only the string ends, so the test holds exactly
when the lower-cased text is the sentinel. -/
def isSentinel (s : List Char) : Bool := lowerStr s == sentinel

/-- The classification produced by the change classifier. -/
inductive ComparisonResult where
  | NoChange : ComparisonResult
  | MaterialChange : List Char → ComparisonResult
  deriving DecidableEq

/-- `currentERD ? normalizeERD(currentERD) : ""` (line 154): JavaScript
truthiness, so `null` and the empty string both yield `""`. -/
def currentNormOf : Option (List Char) → List Char
  | none => []
  | some s => if s.isEmpty then [] else normalizeERD s

/-- The change classifier of `run` (lines 144-160): Layer 1 trusts the
sentinel and skips everything else; otherwise a warning records whether
the output fails to begin with `erDiagram` (case-insensitively), and
Layer 2 compares the normalized texts, reclassifying to `NoChange` on
equality.  Returns the pair (warning emitted, classification). -/
def classifyChange (currentERD : Option (List Char)) (result : List Char) :
    Bool × ComparisonResult :=
  if isSentinel result then (false, .NoChange)
  else
    let warned := !(startsWithL keyword (lowerStr result))
    if currentNormOf currentERD = normalizeERD result then (warned, .NoChange)
    else (warned, .MaterialChange result)

/-- Terminal state of one `run`. -/
inductive RunOutcome where
  | configError : RunOutcome
  | noChange : RunOutcome
  | materialChange : List Char → RunOutcome
  deriving DecidableEq

/-- Observable effects of one `run`: its outcome, whether the generator
endpoint was invoked, whether `core.warning` fired, and whether
`core.setFailed` was called. -/
structure RunResult where
  outcome : RunOutcome
  calledGenerator : Bool
  warned : Bool
  failed : Bool
  deriving DecidableEq

/-- The `run` pipeline (lines 120-179) after input parsing:
`schemaFiles` is the Collector result, `currentERD` the stored diagram
(`none` when the file is absent), and `gen` the generator endpoint
returning the first completion content (`none` for a missing `content`
field).  A transport error aborts `run` by a thrown exception before
any classification and is outside this model. -/
def runModel (schemaFiles : List FileBlob) (currentERD : Option (List Char))
    (repo : List Char) (gen : List Char → Option (List Char)) : RunResult :=
  if schemaFiles.length = 0 then ⟨.configError, false, false, true⟩
  else
    let result := cleanResponse (gen (buildPrompt ⟨repo, schemaFiles, currentERD⟩))
    match classifyChange currentERD result with
    | (w, .NoChange) => ⟨.noChange, true, w, false⟩
    | (w, .MaterialChange d) => ⟨.materialChange d, true, w, true⟩

/-- The line-cleaning stage of `normalizeERD`: trim every line and drop
the empty ones. -/
def cleanLines (ls : List (List Char)) : List (List Char) :=
  (ls.map trim).filter (fun l => !l.isEmpty)

/-- Horizontal whitespace: whitespace other than line terminators, the
kind that can pad a line without changing the line structure. -/
def lineWsChar (c : Char) : Bool :=
  isWsChar c && c != '\n' && c != '\r'

/-- A string of horizontal whitespace only (possibly empty). -/
def wsOnly (l : List Char) : Bool :=
  l.all lineWsChar

/-- A line with no embedded line terminators. -/
def pureLine (l : List Char) : Bool :=
  l.all (fun c => c != '\n' && c != '\r')

/-- `LinesCosmetic ls lt` says the two line sequences differ only
cosmetically: line for line up to leading/trailing horizontal
whitespace and letter case, with whitespace-only (blank) lines freely
inserted on either side. -/
inductive LinesCosmetic : List (List Char) → List (List Char) → Prop where
  | nil : LinesCosmetic [] []
  | line (p q l lc : List Char) (ls ls' : List (List Char))
      (hp : wsOnly p = true) (hq : wsOnly q = true)
      (hcase : lowerStr lc = lowerStr l) (h : LinesCosmetic ls ls') :
      LinesCosmetic (l :: ls) ((p ++ lc ++ q) :: ls')
  | blankL (b : List Char) (ls ls' : List (List Char))
      (hb : wsOnly b = true) (h : LinesCosmetic ls ls') :
      LinesCosmetic (b :: ls) ls'
  | blankR (b : List Char) (ls ls' : List (List Char))
      (hb : wsOnly b = true) (h : LinesCosmetic ls ls') :
      LinesCosmetic ls (b :: ls')

lemma sortSchemaFiles_aux (l P N : List FileBlob) :
    l.foldl (fun acc f => if isPrimary f then f :: acc else acc ++ [f]) (P ++ N) =
      (l.filter (fun f => isPrimary f)).reverse ++ P ++ N ++
        l.filter (fun f => !isPrimary f) := by
  induction l generalizing P N with
  | nil => simp
  | cons f l ih =>
    by_cases h : isPrimary f
    · have hstep : (f :: (P ++ N) : List FileBlob) = (f :: P) ++ N := rfl
      simp only [List.foldl_cons, if_pos h, hstep, ih (f :: P) N,
        List.filter_cons, h, Bool.not_true, if_pos, List.reverse_cons]
      simp [List.append_assoc]
    · have hstep : ((P ++ N) ++ [f] : List FileBlob) = P ++ (N ++ [f]) :=
        List.append_assoc ..
      simp only [List.foldl_cons, if_neg h, hstep, ih P (N ++ [f]),
        List.filter_cons]
      simp [h, List.append_assoc]

example : normalizeERD ("  A b\r\n\r\n c ".data) = ("a b\nc".data) := by decide

example : utf8Encode ("aé€".data) = [0x61, 0xC3, 0xA9, 0xE2, 0x82, 0xAC] := by
  decide

example : utf8Decode [0x61, 0xC3, 0xA9, 0xE2, 0x82, 0xAC] = ("aé€".data) := by
  decide

example : utf8Decode [0x61, 0xC3] = ['a', replChar] := by decide

example : clampBytes ("aé".data) 2 = ['a', replChar] := by decide

example : cleanResponse (some ("```mermaid\nerDiagram\n```".data)) =
    ("erDiagram".data) := by decide

example : cleanResponse none = [] := rfl

example : isSentinel ("No_Change".data) = true := by decide

example : classifyChange (some ("Hello".data)) ("hello".data) =
    (true, .NoChange) := by decide

example : runModel [] none [] (fun _ => none) =
    ⟨.configError, false, false, true⟩ := rfl

example :
    runModel [⟨("a.rb".data), 3, ("abc".data)⟩] none ("o/r".data)
      (fun _ => some ("NO_CHANGE".data)) =
    ⟨.noChange, true, false, false⟩ := rfl

example : trim ("  ab\t ".data) = ("ab".data) := by decide

example : replCRLF ("a\r\r\nb".data) = ("a\r\nb".data) := by decide

example : splitOnChar '\n' ("a\n".data) = [['a'], []] := by decide

example : containsSub ("db/schema.rb".data) ("x/db/schema.rb".data) = true := by
  decide

lemma char_eq_of_toNat_eq {c d : Char} (h : c.toNat = d.toNat) : c = d := by
  rw [← Char.ofNat_toNat c, ← Char.ofNat_toNat d, h]

lemma toNat_ofNat_valid {n : Nat} (h : n.isValidChar) :
    (Char.ofNat n).toNat = n := by
  rw [Char.ofNat, dif_pos h]
  rfl

lemma toLower_def (c : Char) :
    Char.toLower c =
      if 65 ≤ c.toNat ∧ c.toNat ≤ 90 then Char.ofNat (c.toNat + 32) else c :=
  rfl

lemma toNat_toLower_of_upper {c : Char} (h : 65 ≤ c.toNat ∧ c.toNat ≤ 90) :
    (Char.toLower c).toNat = c.toNat + 32 := by
  have hv : (c.toNat + 32).isValidChar := Or.inl (by omega)
  rw [toLower_def, if_pos h]
  exact toNat_ofNat_valid hv

lemma toLower_of_not_upper {c : Char} (h : ¬(65 ≤ c.toNat ∧ c.toNat ≤ 90)) :
    Char.toLower c = c := by
  rw [toLower_def]
  exact if_neg h

lemma toLower_idem (c : Char) :
    Char.toLower (Char.toLower c) = Char.toLower c := by
  by_cases h : 65 ≤ c.toNat ∧ c.toNat ≤ 90
  · have h1 := toNat_toLower_of_upper h
    exact toLower_of_not_upper (by omega)
  · rw [toLower_of_not_upper h, toLower_of_not_upper h]

lemma isWsChar_false_of_toNat {c : Char} (h1 : 14 ≤ c.toNat)
    (h2 : c.toNat ≠ 32) : isWsChar c = false := by
  have e1 : c ≠ ' ' := fun e => h2 (by rw [e]; decide)
  have e2 : c ≠ '\t' := fun e => absurd (e ▸ h1) (by decide)
  have e3 : c ≠ '\n' := fun e => absurd (e ▸ h1) (by decide)
  have e4 : c ≠ '\x0b' := fun e => absurd (e ▸ h1) (by decide)
  have e5 : c ≠ '\x0c' := fun e => absurd (e ▸ h1) (by decide)
  have e6 : c ≠ '\r' := fun e => absurd (e ▸ h1) (by decide)
  simp [isWsChar, e1, e2, e3, e4, e5, e6]

lemma isWsChar_toLower (c : Char) : isWsChar (Char.toLower c) = isWsChar c := by
  by_cases h : 65 ≤ c.toNat ∧ c.toNat ≤ 90
  · have h1 := toNat_toLower_of_upper h
    have ha : isWsChar (Char.toLower c) = false :=
      isWsChar_false_of_toNat (by omega) (by omega)
    have hb : isWsChar c = false :=
      isWsChar_false_of_toNat (by omega) (by omega)
    rw [ha, hb]
  · rw [toLower_of_not_upper h]

lemma eq_of_toLower_eq {c d : Char}
    (hd2 : ¬(97 ≤ d.toNat ∧ d.toNat ≤ 122)) (h : Char.toLower c = d) : c = d := by
  by_cases hc : 65 ≤ c.toNat ∧ c.toNat ≤ 90
  · have h1 := toNat_toLower_of_upper hc
    rw [h] at h1
    omega
  · rwa [toLower_of_not_upper hc] at h

lemma toLower_eq_nl {c : Char} (h : Char.toLower c = '\n') : c = '\n' :=
  eq_of_toLower_eq (by decide) h

lemma toLower_eq_cr {c : Char} (h : Char.toLower c = '\r') : c = '\r' :=
  eq_of_toLower_eq (by decide) h

lemma lowerStr_append (a b : List Char) :
    lowerStr (a ++ b) = lowerStr a ++ lowerStr b :=
  List.map_append ..

lemma lowerStr_idem (l : List Char) : lowerStr (lowerStr l) = lowerStr l := by
  unfold lowerStr
  rw [List.map_map]
  exact List.map_congr_left (fun c _ => toLower_idem c)

lemma length_lowerStr (l : List Char) : (lowerStr l).length = l.length :=
  List.length_map ..

lemma nl_not_mem_lowerStr {l : List Char} (h : '\n' ∉ l) :
    '\n' ∉ lowerStr l := by
  intro hm
  obtain ⟨c, hc, he⟩ := List.mem_map.mp hm
  exact h (toLower_eq_nl he ▸ hc)

lemma dropWhile_dropWhile {α : Type} (p : α → Bool) (l : List α) :
    (l.dropWhile p).dropWhile p = l.dropWhile p := by
  induction l with
  | nil => rfl
  | cons c l ih =>
    by_cases h : p c
    · simp [List.dropWhile_cons_of_pos h, ih]
    · simp [List.dropWhile_cons_of_neg h]

lemma trimLeft_ws_prefix {p : List Char} (hp : ∀ c ∈ p, isWsChar c = true)
    (l : List Char) : trimLeft (p ++ l) = trimLeft l :=
  List.dropWhile_append_of_pos hp

lemma trimLeft_ws_nil {p : List Char} (hp : ∀ c ∈ p, isWsChar c = true) :
    trimLeft p = [] := by
  have h := trimLeft_ws_prefix hp []
  simpa using h

lemma trimRight_ws_suffix {q : List Char} (hq : ∀ c ∈ q, isWsChar c = true)
    (l : List Char) : trimRight (l ++ q) = trimRight l := by
  unfold trimRight
  rw [List.reverse_append,
    List.dropWhile_append_of_pos (fun a ha => hq a (List.mem_reverse.mp ha))]

lemma trim_pad {p q : List Char} (hp : ∀ c ∈ p, isWsChar c = true)
    (hq : ∀ c ∈ q, isWsChar c = true) (l : List Char) :
    trim (p ++ l ++ q) = trim l := by
  unfold trim
  have h1 : trimLeft (p ++ l ++ q) = trimLeft (l ++ q) := by
    rw [List.append_assoc]
    exact trimLeft_ws_prefix hp _
  rw [h1]
  unfold trimLeft
  rw [List.dropWhile_append]
  split
  case isTrue h =>
    rw [show q.dropWhile isWsChar = [] from trimLeft_ws_nil hq,
      show l.dropWhile isWsChar = [] by simpa [List.isEmpty_iff] using h]
  case isFalse h =>
    exact trimRight_ws_suffix hq _

lemma trim_ws_nil {b : List Char} (hb : ∀ c ∈ b, isWsChar c = true) :
    trim b = [] := by
  unfold trim
  rw [show trimLeft b = [] from trimLeft_ws_nil hb]
  rfl

lemma trimRight_eq_append (l : List Char) :
    l = trimRight l ++ (l.reverse.takeWhile isWsChar).reverse := by
  unfold trimRight
  rw [← List.reverse_append, List.takeWhile_append_dropWhile isWsChar,
    List.reverse_reverse]

lemma trimLeft_of_trimRight_fixed {y : List Char} (hy : trimLeft y = y) :
    trimLeft (trimRight y) = trimRight y := by
  obtain ⟨R, hyy⟩ : ∃ R, y = trimRight y ++ R := ⟨_, trimRight_eq_append y⟩
  cases he : trimRight y with
  | nil => rfl
  | cons h t =>
    rw [he] at hyy
    have hhead : isWsChar h = false := by
      by_contra hcon
      have hws : isWsChar h = true := by
        cases hw : isWsChar h
        · exact absurd hw hcon
        · rfl
      have hthis : trimLeft y = trimLeft (t ++ R) := by
        conv_lhs => rw [hyy]
        simp [trimLeft, List.dropWhile_cons_of_pos hws]
      rw [hy] at hthis
      have hlen := congrArg List.length hthis
      have h2 : ((t ++ R).dropWhile isWsChar).length ≤ (t ++ R).length :=
        (List.dropWhile_sublist isWsChar).length_le
      rw [hyy] at hlen
      simp [trimLeft] at hlen h2
      omega
    have hne : ¬ (isWsChar h = true) := by simp [hhead]
    simp [trimLeft, List.dropWhile_cons_of_neg hne]

lemma trimRight_trimRight (y : List Char) :
    trimRight (trimRight y) = trimRight y := by
  unfold trimRight
  rw [List.reverse_reverse, dropWhile_dropWhile]

lemma trim_idem (l : List Char) : trim (trim l) = trim l := by
  have h1 : trimLeft (trimLeft l) = trimLeft l := dropWhile_dropWhile ..
  show trimRight (trimLeft (trimRight (trimLeft l))) = trim l
  rw [trimLeft_of_trimRight_fixed h1, trimRight_trimRight]
  rfl

lemma trimLeft_lowerStr (l : List Char) :
    trimLeft (lowerStr l) = lowerStr (trimLeft l) := by
  unfold trimLeft lowerStr
  rw [List.dropWhile_map,
    show isWsChar ∘ Char.toLower = isWsChar from funext isWsChar_toLower]

lemma trimRight_lowerStr (l : List Char) :
    trimRight (lowerStr l) = lowerStr (trimRight l) := by
  unfold trimRight lowerStr
  rw [← List.map_reverse, List.dropWhile_map,
    show isWsChar ∘ Char.toLower = isWsChar from funext isWsChar_toLower,
    ← List.map_reverse]

lemma trim_lowerStr (l : List Char) : trim (lowerStr l) = lowerStr (trim l) := by
  unfold trim
  rw [trimLeft_lowerStr, trimRight_lowerStr]

lemma trimRight_sublist (z : List Char) : List.Sublist (trimRight z) z := by
  have h : List.Sublist (z.reverse.dropWhile isWsChar) z.reverse :=
    List.dropWhile_sublist isWsChar
  have h2 := h.reverse
  simpa using h2

lemma trim_sublist (l : List Char) : List.Sublist (trim l) l :=
  (trimRight_sublist (trimLeft l)).trans (List.dropWhile_sublist isWsChar)

lemma getLast?_trim_not_ws {l : List Char} {c : Char}
    (h : (trim l).getLast? = some c) : isWsChar c = false := by
  unfold trim trimRight at h
  rw [List.getLast?_reverse] at h
  have hh := List.head?_dropWhile_not isWsChar (trimLeft l).reverse
  rw [h] at hh
  exact hh

lemma replCRLF_cons_ne {c : Char} (hc : c ≠ '\r') (rest : List Char) :
    replCRLF (c :: rest) = c :: replCRLF rest := by
  cases rest with
  | nil => rfl
  | cons d T =>
    simp only [replCRLF]
    rw [if_neg (fun hand => hc hand.1)]

lemma replCRLF_crlf (rest : List Char) :
    replCRLF ('\r' :: '\n' :: rest) = '\n' :: replCRLF rest := by
  simp [replCRLF]

lemma replCRLF_no_nl : ∀ {l : List Char}, '\n' ∉ l → replCRLF l = l
  | [], _ => rfl
  | [_], _ => rfl
  | c :: d :: T, h => by
    have hd : d ≠ '\n' := fun e => h (by simp [e])
    simp only [replCRLF]
    rw [if_neg (fun hand => hd hand.2),
      replCRLF_no_nl (fun hm => h (List.mem_cons_of_mem _ hm))]

lemma replCRLF_append : ∀ (l x : List Char), '\n' ∉ l →
    (l.getLast? ≠ some '\r' ∨ x.head? ≠ some '\n') →
    replCRLF (l ++ x) = l ++ replCRLF x
  | [], _, _, _ => rfl
  | [c], x, _, hb => by
    cases x with
    | nil => simp [replCRLF]
    | cons d T =>
      have hcd : ¬(c = '\r' ∧ d = '\n') := by
        rcases hb with hb | hb
        · exact fun hand => hb (by simp [hand.1])
        · exact fun hand => hb (by simp [hand.2])
      show replCRLF (c :: d :: T) = [c] ++ replCRLF (d :: T)
      simp only [replCRLF]
      rw [if_neg hcd]
      rfl
  | c :: c' :: l', x, h, hb => by
    have hc' : c' ≠ '\n' := fun e => h (by simp [e])
    have hcd : ¬(c = '\r' ∧ c' = '\n') := fun hand => hc' hand.2
    show replCRLF (c :: c' :: (l' ++ x)) = (c :: c' :: l') ++ replCRLF x
    simp only [replCRLF]
    rw [if_neg hcd]
    rw [List.getLast?_cons_cons] at hb
    rw [show c' :: (l' ++ x) = (c' :: l') ++ x from rfl,
      replCRLF_append (c' :: l') x (fun hm => h (List.mem_cons_of_mem _ hm)) hb]
    rfl

lemma joinNl_cons_cons (l l2 : List Char) (ls : List (List Char)) :
    joinNl (l :: l2 :: ls) = l ++ ('\n' :: joinNl (l2 :: ls)) := by
  simp [joinNl, joinWith, List.append_assoc]

lemma lowerStr_joinNl : ∀ ls : List (List Char),
    lowerStr (joinNl ls) = joinNl (ls.map lowerStr)
  | [] => rfl
  | [l] => rfl
  | l :: l2 :: ls => by
    rw [joinNl_cons_cons, lowerStr_append,
      show lowerStr ('\n' :: joinNl (l2 :: ls)) =
        '\n' :: lowerStr (joinNl (l2 :: ls)) from rfl,
      lowerStr_joinNl (l2 :: ls),
      show (l :: l2 :: ls).map lowerStr =
        lowerStr l :: lowerStr l2 :: ls.map lowerStr from rfl,
      joinNl_cons_cons]
    rfl

lemma replCRLF_joinNl : ∀ ls : List (List Char),
    (∀ l ∈ ls, '\n' ∉ l ∧ l.getLast? ≠ some '\r') →
    replCRLF (joinNl ls) = joinNl ls
  | [], _ => rfl
  | [l], hp => replCRLF_no_nl (hp l (by simp)).1
  | l :: l2 :: ls, hp => by
    have h1 := hp l (by simp)
    rw [joinNl_cons_cons,
      replCRLF_append l _ h1.1 (Or.inl h1.2),
      replCRLF_cons_ne (by decide) _,
      replCRLF_joinNl (l2 :: ls) (fun x hx => hp x (List.mem_cons_of_mem _ hx))]

lemma joinCRLF_cons_cons (l l2 : List Char) (ls : List (List Char)) :
    joinWith ['\r', '\n'] (l :: l2 :: ls) =
      l ++ ('\r' :: '\n' :: joinWith ['\r', '\n'] (l2 :: ls)) := by
  simp [joinWith, List.append_assoc]

lemma replCRLF_joinCRLF : ∀ ls : List (List Char), (∀ l ∈ ls, '\n' ∉ l) →
    replCRLF (joinWith ['\r', '\n'] ls) = joinNl ls
  | [], _ => rfl
  | [l], hp => replCRLF_no_nl (hp l (by simp))
  | l :: l2 :: ls, hp => by
    rw [joinCRLF_cons_cons,
      replCRLF_append l _ (hp l (by simp)) (Or.inr (by simp)),
      replCRLF_crlf,
      replCRLF_joinCRLF (l2 :: ls) (fun x hx => hp x (List.mem_cons_of_mem _ hx)),
      joinNl_cons_cons]

lemma splitOnChar_of_not_mem {sep : Char} : ∀ {s : List Char}, sep ∉ s →
    splitOnChar sep s = [s]
  | [], _ => rfl
  | c :: rest, h => by
    have hc : ¬ c = sep := fun e => h (by simp [e])
    simp only [splitOnChar, if_neg hc]
    rw [splitOnChar_of_not_mem (fun hm => h (List.mem_cons_of_mem _ hm))]

lemma splitOnChar_append_sep {sep : Char} : ∀ {a : List Char} (x : List Char),
    sep ∉ a → splitOnChar sep (a ++ sep :: x) = a :: splitOnChar sep x
  | [], x, _ => by simp [splitOnChar]
  | c :: a', x, h => by
    have hc : ¬ c = sep := fun e => h (by simp [e])
    show splitOnChar sep (c :: (a' ++ sep :: x)) = (c :: a') :: splitOnChar sep x
    simp only [splitOnChar, if_neg hc]
    rw [splitOnChar_append_sep x (fun hm => h (List.mem_cons_of_mem _ hm))]

lemma splitNl_joinNl : ∀ ls : List (List Char), ls ≠ [] →
    (∀ l ∈ ls, '\n' ∉ l) → splitOnChar '\n' (joinNl ls) = ls
  | [], h, _ => absurd rfl h
  | [l], _, hp => splitOnChar_of_not_mem (hp l (by simp))
  | l :: l2 :: ls, _, hp => by
    rw [joinNl_cons_cons,
      splitOnChar_append_sep _ (hp l (by simp)),
      splitNl_joinNl (l2 :: ls) (by simp)
        (fun x hx => hp x (List.mem_cons_of_mem _ hx))]

lemma splitOnChar_not_mem_sep (sep : Char) :
    ∀ (s : List Char), ∀ l ∈ splitOnChar sep s, sep ∉ l
  | [], l, hl => by
    simp [splitOnChar] at hl
    simp [hl]
  | c :: rest, l, hl => by
    by_cases hc : c = sep
    · rw [show splitOnChar sep (c :: rest) = [] :: splitOnChar sep rest by
        simp [splitOnChar, hc]] at hl
      rcases List.mem_cons.mp hl with rfl | hmem
      · simp
      · exact splitOnChar_not_mem_sep sep rest l hmem
    · simp only [splitOnChar, if_neg hc] at hl
      cases hsr : splitOnChar sep rest with
      | nil =>
        rw [hsr] at hl
        simp at hl
        subst hl
        intro hs
        exact hc (List.mem_singleton.mp hs).symm
      | cons l0 ls0 =>
        rw [hsr] at hl
        rcases List.mem_cons.mp hl with rfl | hmem
        · intro hs
          rcases List.mem_cons.mp hs with he | hmem2
          · exact hc he.symm
          · exact splitOnChar_not_mem_sep sep rest l0
              (by rw [hsr]; exact List.mem_cons_self ..) hmem2
        · exact splitOnChar_not_mem_sep sep rest l
            (by rw [hsr]; exact List.mem_cons_of_mem _ hmem)

lemma mem_cleanLines {ls : List (List Char)} {l : List Char}
    (h : l ∈ cleanLines ls) : ∃ a ∈ ls, l = trim a ∧ l ≠ [] := by
  unfold cleanLines at h
  rw [List.mem_filter] at h
  obtain ⟨hmap, hne⟩ := h
  obtain ⟨a, ha, rfl⟩ := List.mem_map.mp hmap
  refine ⟨a, ha, rfl, ?_⟩
  simpa [List.isEmpty_iff] using hne

lemma normalizeERD_def (s : List Char) :
    normalizeERD s =
      lowerStr (joinNl (cleanLines (splitOnChar '\n' (replCRLF s)))) := rfl

lemma normalizeERD_idem (s : List Char) :
    normalizeERD (normalizeERD s) = normalizeERD s := by
  rw [normalizeERD_def s]
  set L := cleanLines (splitOnChar '\n' (replCRLF s)) with hL
  have hmem : ∀ l ∈ L, l ≠ [] ∧ trim l = l ∧ '\n' ∉ l ∧
      l.getLast? ≠ some '\r' := by
    intro l hl
    rw [hL] at hl
    obtain ⟨a, ha, rfl, hne⟩ := mem_cleanLines hl
    refine ⟨hne, trim_idem a, ?_, ?_⟩
    · intro hmm
      exact splitOnChar_not_mem_sep '\n' (replCRLF s) a ha
        ((trim_sublist a).subset hmm)
    · intro hlast
      exact absurd (getLast?_trim_not_ws hlast) (by decide)
  by_cases hL0 : L = []
  · rw [hL0]
    rfl
  · have hMmem : ∀ l ∈ L.map lowerStr, '\n' ∉ l ∧ l.getLast? ≠ some '\r' := by
      intro l hl
      obtain ⟨a, ha, rfl⟩ := List.mem_map.mp hl
      obtain ⟨_, _, hanl, halast⟩ := hmem a ha
      refine ⟨nl_not_mem_lowerStr hanl, ?_⟩
      show (a.map Char.toLower).getLast? ≠ some '\r'
      rw [List.getLast?_map]
      intro hc
      cases hga : a.getLast? with
      | none => rw [hga] at hc; simp at hc
      | some c =>
        rw [hga] at hc
        simp at hc
        exact halast (by rw [hga, toLower_eq_cr hc])
    have hMne : L.map lowerStr ≠ [] := by
      simpa using hL0
    have htrimM : ∀ l ∈ L.map lowerStr, trim l = l := by
      intro l hl
      obtain ⟨a, ha, rfl⟩ := List.mem_map.mp hl
      obtain ⟨_, hat, _, _⟩ := hmem a ha
      show trim (lowerStr a) = lowerStr a
      rw [trim_lowerStr, hat]
    have hneM : ∀ l ∈ L.map lowerStr, l ≠ [] := by
      intro l hl
      obtain ⟨a, ha, rfl⟩ := List.mem_map.mp hl
      obtain ⟨hane, _, _, _⟩ := hmem a ha
      simpa [lowerStr] using hane
    have hclean : cleanLines (L.map lowerStr) = L.map lowerStr := by
      unfold cleanLines
      rw [show (L.map lowerStr).map trim = L.map lowerStr from by
        have h1 : (L.map lowerStr).map trim = (L.map lowerStr).map id :=
          List.map_congr_left (fun a ha => htrimM a ha)
        simpa using h1]
      exact List.filter_eq_self.mpr (fun a ha => by
        simpa [List.isEmpty_iff] using hneM a ha)
    have hlowM : (L.map lowerStr).map lowerStr = L.map lowerStr := by
      rw [List.map_map]
      exact List.map_congr_left (fun a _ => lowerStr_idem a)
    rw [normalizeERD_def, lowerStr_joinNl L,
      replCRLF_joinNl _ hMmem,
      splitNl_joinNl _ hMne (fun l hl => (hMmem l hl).1),
      hclean, lowerStr_joinNl, hlowM]

lemma wsOnly_isWs {b : List Char} (hb : wsOnly b = true) :
    ∀ c ∈ b, isWsChar c = true := by
  intro c hc
  have h := List.all_eq_true.mp hb c hc
  simp only [lineWsChar, Bool.and_eq_true] at h
  exact h.1.1

lemma pureLine_not_mem {l : List Char} (h : pureLine l = true) :
    '\n' ∉ l ∧ '\r' ∉ l := by
  constructor <;> intro hm <;> have hx := List.all_eq_true.mp h _ hm <;>
    simp at hx

lemma getLast?_ne_of_not_mem {l : List Char} {c : Char} (h : c ∉ l) :
    l.getLast? ≠ some c :=
  fun he => h (List.mem_of_getLast?_eq_some he)

lemma cleanLines_cosmetic {ls ls' : List (List Char)}
    (h : LinesCosmetic ls ls') :
    (cleanLines ls).map lowerStr = (cleanLines ls').map lowerStr := by
  induction h with
  | nil => rfl
  | line p q l lc ls ls' hp hq hcase h ih =>
    have hpad : trim (p ++ lc ++ q) = trim lc :=
      trim_pad (wsOnly_isWs hp) (wsOnly_isWs hq) lc
    have hlow : lowerStr (trim lc) = lowerStr (trim l) := by
      rw [← trim_lowerStr, ← trim_lowerStr, hcase]
    have hlen : (trim lc).length = (trim l).length := by
      have hh := congrArg List.length hlow
      simpa [lowerStr] using hh
    show ((trim l :: ls.map trim).filter (fun x => !x.isEmpty)).map lowerStr =
      ((trim (p ++ lc ++ q) :: ls'.map trim).filter
        (fun x => !x.isEmpty)).map lowerStr
    rw [hpad]
    by_cases hemp : trim l = []
    · have hemp' : trim lc = [] := by
        rw [← List.length_eq_zero, hlen, List.length_eq_zero]
        exact hemp
      rw [List.filter_cons_of_neg (by simp [hemp]),
        List.filter_cons_of_neg (by simp [hemp'])]
      exact ih
    · have hemp' : ¬ trim lc = [] := by
        rw [← List.length_eq_zero, hlen, List.length_eq_zero]
        exact hemp
      rw [List.filter_cons_of_pos (by simp [List.isEmpty_iff, hemp]),
        List.filter_cons_of_pos (by simp [List.isEmpty_iff, hemp'])]
      simp only [List.map_cons]
      rw [hlow]
      exact congrArg (List.cons (lowerStr (trim l))) ih
  | blankL b ls ls' hb h ih =>
    have hb0 : trim b = [] := trim_ws_nil (wsOnly_isWs hb)
    show ((trim b :: ls.map trim).filter (fun x => !x.isEmpty)).map lowerStr = _
    rw [hb0, List.filter_cons_of_neg (by simp)]
    exact ih
  | blankR b ls ls' hb h ih =>
    have hb0 : trim b = [] := trim_ws_nil (wsOnly_isWs hb)
    show _ = ((trim b :: ls'.map trim).filter (fun x => !x.isEmpty)).map lowerStr
    rw [hb0, List.filter_cons_of_neg (by simp)]
    exact ih

lemma normalizeERD_joinNl_pure {ls : List (List Char)}
    (h : ∀ l ∈ ls, '\n' ∉ l ∧ '\r' ∉ l) :
    normalizeERD (joinNl ls) = lowerStr (joinNl (cleanLines ls)) := by
  by_cases h0 : ls = []
  · subst h0
    rfl
  · rw [normalizeERD_def,
      replCRLF_joinNl ls
        (fun l hl => ⟨(h l hl).1, getLast?_ne_of_not_mem (h l hl).2⟩),
      splitNl_joinNl ls h0 (fun l hl => (h l hl).1)]

lemma normalizeERD_joinCRLF_pure {ls : List (List Char)}
    (h : ∀ l ∈ ls, '\n' ∉ l) :
    normalizeERD (joinWith ['\r', '\n'] ls) =
      lowerStr (joinNl (cleanLines ls)) := by
  by_cases h0 : ls = []
  · subst h0
    rfl
  · rw [normalizeERD_def, replCRLF_joinCRLF ls h, splitNl_joinNl ls h0 h]

/-- Claim C5: the normalization function is idempotent, and any two
texts that differ only in line-ending style (CRLF against LF), leading
or trailing horizontal whitespace per line, inserted blank lines, or
letter case (the `LinesCosmetic` relation on their line decompositions)
normalize to identical outputs. -/
theorem normalizeERD_cosmetic :
    (∀ s, normalizeERD (normalizeERD s) = normalizeERD s) ∧
    (∀ ls ls' : List (List Char), (∀ l ∈ ls, pureLine l = true) →
      (∀ l ∈ ls', pureLine l = true) → LinesCosmetic ls ls' →
      normalizeERD (joinWith ['\r', '\n'] ls) = normalizeERD (joinNl ls')) := by
  refine ⟨normalizeERD_idem, fun ls ls' h1 h2 hc => ?_⟩
  rw [normalizeERD_joinCRLF_pure (fun l hl => (pureLine_not_mem (h1 l hl)).1),
    normalizeERD_joinNl_pure (fun l hl => pureLine_not_mem (h2 l hl)),
    lowerStr_joinNl, lowerStr_joinNl, cleanLines_cosmetic hc]

/-- Witness for claim C5: `"A"` with a CRLF convention against
`" a"` with LF, related by one cosmetic line edit. -/
theorem normalizeERD_cosmetic_witness :
    normalizeERD (normalizeERD ("A\r\n b".data)) =
      normalizeERD ("A\r\n b".data) ∧
    normalizeERD (joinWith ['\r', '\n'] [['A']]) =
      normalizeERD (joinNl [[' ', 'a']]) :=
  ⟨normalizeERD_cosmetic.1 _,
   normalizeERD_cosmetic.2 [['A']] [[' ', 'a']] (by decide) (by decide)
     (LinesCosmetic.line [' '] [] ['A'] ['a'] [] [] (by decide) (by decide)
       (by decide) LinesCosmetic.nil)⟩

lemma char_toNat_valid (c : Char) :
    c.toNat < 0xD800 ∨ (0xE000 ≤ c.toNat ∧ c.toNat < 0x110000) := by
  rcases c.valid with h | ⟨h1, h2⟩
  · exact Or.inl h
  · refine Or.inr ⟨?_, h2⟩
    show 0xE000 ≤ c.val.toNat
    omega

lemma utf8EncodeChar_one {c : Char} (h : c.toNat < 0x80) :
    utf8EncodeChar c = [c.toNat] := by
  simp only [utf8EncodeChar]
  rw [if_pos h]

lemma utf8EncodeChar_two {c : Char} (h1 : 0x80 ≤ c.toNat)
    (h2 : c.toNat < 0x800) :
    utf8EncodeChar c = [0xC0 + c.toNat / 64, 0x80 + c.toNat % 64] := by
  simp only [utf8EncodeChar]
  rw [if_neg (by omega), if_pos h2]

lemma utf8EncodeChar_three {c : Char} (h1 : 0x800 ≤ c.toNat)
    (h2 : c.toNat < 0x10000) :
    utf8EncodeChar c =
      [0xE0 + c.toNat / 4096, 0x80 + (c.toNat / 64) % 64,
        0x80 + c.toNat % 64] := by
  simp only [utf8EncodeChar]
  rw [if_neg (by omega), if_neg (by omega), if_pos h2]

lemma utf8EncodeChar_four {c : Char} (h1 : 0x10000 ≤ c.toNat) :
    utf8EncodeChar c =
      [0xF0 + c.toNat / 262144, 0x80 + (c.toNat / 4096) % 64,
        0x80 + (c.toNat / 64) % 64, 0x80 + c.toNat % 64] := by
  simp only [utf8EncodeChar]
  rw [if_neg (by omega), if_neg (by omega), if_neg (by omega)]

lemma utf8EncodeChar_length_pos (c : Char) :
    1 ≤ (utf8EncodeChar c).length ∧ (utf8EncodeChar c).length ≤ 4 := by
  simp only [utf8EncodeChar]
  split
  · simp
  · split
    · simp
    · split <;> simp

lemma utf8Decode_one {b : Nat} (h : b < 0x80) (B : List Nat) :
    utf8Decode (b :: B) = Char.ofNat b :: utf8Decode B := by
  rw [utf8Decode.eq_def]
  show (if b < 0x80 then Char.ofNat b :: utf8Decode B
    else if b < 0xC2 then replChar :: utf8Decode B
    else if b < 0xE0 then
      match B with
      | [] => [replChar]
      | b1 :: rest1 =>
        if contB b1 then
          Char.ofNat ((b - 0xC0) * 64 + (b1 - 0x80)) :: utf8Decode rest1
        else replChar :: utf8Decode (b1 :: rest1)
    else if b < 0xF0 then
      match B with
      | [] => [replChar]
      | b1 :: rest1 =>
        if cont3 b b1 then
          match rest1 with
          | [] => [replChar]
          | b2 :: rest2 =>
            if contB b2 then
              Char.ofNat ((b - 0xE0) * 4096 + (b1 - 0x80) * 64 + (b2 - 0x80)) ::
                utf8Decode rest2
            else replChar :: utf8Decode (b2 :: rest2)
        else replChar :: utf8Decode (b1 :: rest1)
    else if b < 0xF5 then
      match B with
      | [] => [replChar]
      | b1 :: rest1 =>
        if cont4 b b1 then
          match rest1 with
          | [] => [replChar]
          | b2 :: rest2 =>
            if contB b2 then
              match rest2 with
              | [] => [replChar]
              | b3 :: rest3 =>
                if contB b3 then
                  Char.ofNat ((b - 0xF0) * 262144 + (b1 - 0x80) * 4096 +
                      (b2 - 0x80) * 64 + (b3 - 0x80)) :: utf8Decode rest3
                else replChar :: utf8Decode (b3 :: rest3)
            else replChar :: utf8Decode (b2 :: rest2)
        else replChar :: utf8Decode (b1 :: rest1)
    else replChar :: utf8Decode B) = Char.ofNat b :: utf8Decode B
  rw [if_pos h]

lemma utf8Decode_two {b b1 : Nat} (hb : 0xC2 ≤ b) (hb2 : b < 0xE0)
    (hc : contB b1 = true) (B : List Nat) :
    utf8Decode (b :: b1 :: B) =
      Char.ofNat ((b - 0xC0) * 64 + (b1 - 0x80)) :: utf8Decode B := by
  rw [utf8Decode.eq_def]
  show (if b < 0x80 then Char.ofNat b :: utf8Decode (b1 :: B)
    else if b < 0xC2 then replChar :: utf8Decode (b1 :: B)
    else if b < 0xE0 then
      if contB b1 then
        Char.ofNat ((b - 0xC0) * 64 + (b1 - 0x80)) :: utf8Decode B
      else replChar :: utf8Decode (b1 :: B)
    else if b < 0xF0 then
      if cont3 b b1 then
        match B with
        | [] => [replChar]
        | b2 :: rest2 =>
          if contB b2 then
            Char.ofNat ((b - 0xE0) * 4096 + (b1 - 0x80) * 64 + (b2 - 0x80)) ::
              utf8Decode rest2
          else replChar :: utf8Decode (b2 :: rest2)
      else replChar :: utf8Decode (b1 :: B)
    else if b < 0xF5 then
      if cont4 b b1 then
        match B with
        | [] => [replChar]
        | b2 :: rest2 =>
          if contB b2 then
            match rest2 with
            | [] => [replChar]
            | b3 :: rest3 =>
              if contB b3 then
                Char.ofNat ((b - 0xF0) * 262144 + (b1 - 0x80) * 4096 +
                    (b2 - 0x80) * 64 + (b3 - 0x80)) :: utf8Decode rest3
              else replChar :: utf8Decode (b3 :: rest3)
          else replChar :: utf8Decode (b2 :: rest2)
      else replChar :: utf8Decode (b1 :: B)
    else replChar :: utf8Decode (b1 :: B)) = _
  rw [if_neg (by omega), if_neg (by omega), if_pos hb2, if_pos hc]

lemma utf8Decode_three {b b1 b2 : Nat} (hb : 0xE0 ≤ b) (hb2 : b < 0xF0)
    (hc1 : cont3 b b1 = true) (hc2 : contB b2 = true) (B : List Nat) :
    utf8Decode (b :: b1 :: b2 :: B) =
      Char.ofNat ((b - 0xE0) * 4096 + (b1 - 0x80) * 64 + (b2 - 0x80)) ::
        utf8Decode B := by
  rw [utf8Decode.eq_def]
  show (if b < 0x80 then Char.ofNat b :: utf8Decode (b1 :: b2 :: B)
    else if b < 0xC2 then replChar :: utf8Decode (b1 :: b2 :: B)
    else if b < 0xE0 then
      if contB b1 then
        Char.ofNat ((b - 0xC0) * 64 + (b1 - 0x80)) :: utf8Decode (b2 :: B)
      else replChar :: utf8Decode (b1 :: b2 :: B)
    else if b < 0xF0 then
      if cont3 b b1 then
        if contB b2 then
          Char.ofNat ((b - 0xE0) * 4096 + (b1 - 0x80) * 64 + (b2 - 0x80)) ::
            utf8Decode B
        else replChar :: utf8Decode (b2 :: B)
      else replChar :: utf8Decode (b1 :: b2 :: B)
    else if b < 0xF5 then
      if cont4 b b1 then
        if contB b2 then
          match B with
          | [] => [replChar]
          | b3 :: rest3 =>
            if contB b3 then
              Char.ofNat ((b - 0xF0) * 262144 + (b1 - 0x80) * 4096 +
                  (b2 - 0x80) * 64 + (b3 - 0x80)) :: utf8Decode rest3
            else replChar :: utf8Decode (b3 :: rest3)
        else replChar :: utf8Decode (b2 :: B)
      else replChar :: utf8Decode (b1 :: b2 :: B)
    else replChar :: utf8Decode (b1 :: b2 :: B)) = _
  rw [if_neg (by omega), if_neg (by omega), if_neg (by omega), if_pos hb2,
    if_pos hc1, if_pos hc2]

lemma utf8Decode_four {b b1 b2 b3 : Nat} (hb : 0xF0 ≤ b) (hb2 : b < 0xF5)
    (hc1 : cont4 b b1 = true) (hc2 : contB b2 = true) (hc3 : contB b3 = true)
    (B : List Nat) :
    utf8Decode (b :: b1 :: b2 :: b3 :: B) =
      Char.ofNat ((b - 0xF0) * 262144 + (b1 - 0x80) * 4096 +
        (b2 - 0x80) * 64 + (b3 - 0x80)) :: utf8Decode B := by
  rw [utf8Decode.eq_def]
  show (if b < 0x80 then Char.ofNat b :: utf8Decode (b1 :: b2 :: b3 :: B)
    else if b < 0xC2 then replChar :: utf8Decode (b1 :: b2 :: b3 :: B)
    else if b < 0xE0 then
      if contB b1 then
        Char.ofNat ((b - 0xC0) * 64 + (b1 - 0x80)) :: utf8Decode (b2 :: b3 :: B)
      else replChar :: utf8Decode (b1 :: b2 :: b3 :: B)
    else if b < 0xF0 then
      if cont3 b b1 then
        if contB b2 then
          Char.ofNat ((b - 0xE0) * 4096 + (b1 - 0x80) * 64 + (b2 - 0x80)) ::
            utf8Decode (b3 :: B)
        else replChar :: utf8Decode (b2 :: b3 :: B)
      else replChar :: utf8Decode (b1 :: b2 :: b3 :: B)
    else if b < 0xF5 then
      if cont4 b b1 then
        if contB b2 then
          if contB b3 then
            Char.ofNat ((b - 0xF0) * 262144 + (b1 - 0x80) * 4096 +
                (b2 - 0x80) * 64 + (b3 - 0x80)) :: utf8Decode B
          else replChar :: utf8Decode (b3 :: B)
        else replChar :: utf8Decode (b2 :: b3 :: B)
      else replChar :: utf8Decode (b1 :: b2 :: b3 :: B)
    else replChar :: utf8Decode (b1 :: b2 :: b3 :: B)) = _
  rw [if_neg (by omega), if_neg (by omega), if_neg (by omega),
    if_neg (by omega), if_pos hb2, if_pos hc1, if_pos hc2, if_pos hc3]

lemma contB_true {n : Nat} (h : n < 64) : contB (0x80 + n) = true := by
  simp only [contB, decide_eq_true_iff]
  omega

lemma cont3_enc {c : Char} (h1 : 0x800 ≤ c.toNat) (h2 : c.toNat < 0x10000)
    (hv : c.toNat < 0xD800 ∨ 0xE000 ≤ c.toNat) :
    cont3 (0xE0 + c.toNat / 4096) (0x80 + c.toNat / 64 % 64) = true := by
  simp only [cont3, contB]
  split
  next h => simp only [decide_eq_true_iff]; omega
  next h =>
    split
    next h' => simp only [decide_eq_true_iff]; omega
    next h' => simp only [decide_eq_true_iff]; omega

lemma cont4_enc {c : Char} (h1 : 0x10000 ≤ c.toNat) (h2 : c.toNat < 0x110000) :
    cont4 (0xF0 + c.toNat / 262144) (0x80 + c.toNat / 4096 % 64) = true := by
  simp only [cont4, contB]
  split
  next h => simp only [decide_eq_true_iff]; omega
  next h =>
    split
    next h' => simp only [decide_eq_true_iff]; omega
    next h' => simp only [decide_eq_true_iff]; omega

lemma utf8Decode_encodeChar (c : Char) (B : List Nat) :
    utf8Decode (utf8EncodeChar c ++ B) = c :: utf8Decode B := by
  have hv := char_toNat_valid c
  by_cases h1 : c.toNat < 0x80
  · rw [utf8EncodeChar_one h1]
    show utf8Decode (c.toNat :: B) = _
    rw [utf8Decode_one h1, Char.ofNat_toNat]
  · by_cases h2 : c.toNat < 0x800
    · rw [utf8EncodeChar_two (by omega) h2]
      show utf8Decode ((0xC0 + c.toNat / 64) :: (0x80 + c.toNat % 64) :: B) = _
      rw [utf8Decode_two (by omega) (by omega) (contB_true (by omega)) B,
        show 0xC0 + c.toNat / 64 - 0xC0 = c.toNat / 64 from by omega,
        show 0x80 + c.toNat % 64 - 0x80 = c.toNat % 64 from by omega,
        show c.toNat / 64 * 64 + c.toNat % 64 = c.toNat from by omega,
        Char.ofNat_toNat]
    · by_cases h3 : c.toNat < 0x10000
      · rw [utf8EncodeChar_three (by omega) h3]
        show utf8Decode ((0xE0 + c.toNat / 4096) ::
          (0x80 + c.toNat / 64 % 64) :: (0x80 + c.toNat % 64) :: B) = _
        rw [utf8Decode_three (by omega) (by omega)
            (cont3_enc (by omega) h3 (by omega)) (contB_true (by omega)) B,
          show 0xE0 + c.toNat / 4096 - 0xE0 = c.toNat / 4096 from by omega,
          show 0x80 + c.toNat / 64 % 64 - 0x80 = c.toNat / 64 % 64 from by omega,
          show 0x80 + c.toNat % 64 - 0x80 = c.toNat % 64 from by omega,
          show c.toNat / 4096 * 4096 + c.toNat / 64 % 64 * 64 +
            c.toNat % 64 = c.toNat from by omega,
          Char.ofNat_toNat]
      · have h4 : 0x10000 ≤ c.toNat := by omega
        have h5 : c.toNat < 0x110000 := by omega
        rw [utf8EncodeChar_four h4]
        show utf8Decode ((0xF0 + c.toNat / 262144) ::
          (0x80 + c.toNat / 4096 % 64) :: (0x80 + c.toNat / 64 % 64) ::
          (0x80 + c.toNat % 64) :: B) = _
        rw [utf8Decode_four (by omega) (by omega) (cont4_enc h4 h5)
            (contB_true (by omega)) (contB_true (by omega)) B,
          show 0xF0 + c.toNat / 262144 - 0xF0 = c.toNat / 262144 from by omega,
          show 0x80 + c.toNat / 4096 % 64 - 0x80 = c.toNat / 4096 % 64 from
            by omega,
          show 0x80 + c.toNat / 64 % 64 - 0x80 = c.toNat / 64 % 64 from by omega,
          show 0x80 + c.toNat % 64 - 0x80 = c.toNat % 64 from by omega,
          show c.toNat / 262144 * 262144 + c.toNat / 4096 % 64 * 4096 +
            c.toNat / 64 % 64 * 64 + c.toNat % 64 = c.toNat from by omega,
          Char.ofNat_toNat]

lemma utf8Decode_single_lead {b : Nat} (hb : 0xC2 ≤ b) (hb2 : b < 0xF5) :
    utf8Decode [b] = [replChar] := by
  rw [utf8Decode.eq_def]
  show (if b < 0x80 then Char.ofNat b :: utf8Decode []
    else if b < 0xC2 then replChar :: utf8Decode []
    else if b < 0xE0 then [replChar]
    else if b < 0xF0 then [replChar]
    else if b < 0xF5 then [replChar]
    else replChar :: utf8Decode []) = [replChar]
  rw [if_neg (by omega), if_neg (by omega)]
  by_cases h3 : b < 0xE0
  · rw [if_pos h3]
  · rw [if_neg h3]
    by_cases h4 : b < 0xF0
    · rw [if_pos h4]
    · rw [if_neg h4, if_pos hb2]

lemma utf8Decode_pair3 {b b1 : Nat} (hb : 0xE0 ≤ b) (hb2 : b < 0xF0)
    (hc1 : cont3 b b1 = true) : utf8Decode [b, b1] = [replChar] := by
  rw [utf8Decode.eq_def]
  show (if b < 0x80 then Char.ofNat b :: utf8Decode [b1]
    else if b < 0xC2 then replChar :: utf8Decode [b1]
    else if b < 0xE0 then
      if contB b1 then
        Char.ofNat ((b - 0xC0) * 64 + (b1 - 0x80)) :: utf8Decode []
      else replChar :: utf8Decode [b1]
    else if b < 0xF0 then
      if cont3 b b1 then [replChar] else replChar :: utf8Decode [b1]
    else if b < 0xF5 then
      if cont4 b b1 then [replChar] else replChar :: utf8Decode [b1]
    else replChar :: utf8Decode [b1]) = [replChar]
  rw [if_neg (by omega), if_neg (by omega), if_neg (by omega), if_pos hb2,
    if_pos hc1]

lemma utf8Decode_pair4 {b b1 : Nat} (hb : 0xF0 ≤ b) (hb2 : b < 0xF5)
    (hc1 : cont4 b b1 = true) : utf8Decode [b, b1] = [replChar] := by
  rw [utf8Decode.eq_def]
  show (if b < 0x80 then Char.ofNat b :: utf8Decode [b1]
    else if b < 0xC2 then replChar :: utf8Decode [b1]
    else if b < 0xE0 then
      if contB b1 then
        Char.ofNat ((b - 0xC0) * 64 + (b1 - 0x80)) :: utf8Decode []
      else replChar :: utf8Decode [b1]
    else if b < 0xF0 then
      if cont3 b b1 then [replChar] else replChar :: utf8Decode [b1]
    else if b < 0xF5 then
      if cont4 b b1 then [replChar] else replChar :: utf8Decode [b1]
    else replChar :: utf8Decode [b1]) = [replChar]
  rw [if_neg (by omega), if_neg (by omega), if_neg (by omega),
    if_neg (by omega), if_pos hb2, if_pos hc1]

lemma utf8Decode_triple4 {b b1 b2 : Nat} (hb : 0xF0 ≤ b) (hb2 : b < 0xF5)
    (hc1 : cont4 b b1 = true) (hc2 : contB b2 = true) :
    utf8Decode [b, b1, b2] = [replChar] := by
  rw [utf8Decode.eq_def]
  show (if b < 0x80 then Char.ofNat b :: utf8Decode [b1, b2]
    else if b < 0xC2 then replChar :: utf8Decode [b1, b2]
    else if b < 0xE0 then
      if contB b1 then
        Char.ofNat ((b - 0xC0) * 64 + (b1 - 0x80)) :: utf8Decode [b2]
      else replChar :: utf8Decode [b1, b2]
    else if b < 0xF0 then
      if cont3 b b1 then
        if contB b2 then
          Char.ofNat ((b - 0xE0) * 4096 + (b1 - 0x80) * 64 + (b2 - 0x80)) ::
            utf8Decode []
        else replChar :: utf8Decode [b2]
      else replChar :: utf8Decode [b1, b2]
    else if b < 0xF5 then
      if cont4 b b1 then
        if contB b2 then [replChar]
        else replChar :: utf8Decode [b2]
      else replChar :: utf8Decode [b1, b2]
    else replChar :: utf8Decode [b1, b2]) = [replChar]
  rw [if_neg (by omega), if_neg (by omega), if_neg (by omega),
    if_neg (by omega), if_pos hb2, if_pos hc1, if_pos hc2]

lemma utf8Decode_take_partial (c : Char) (k : Nat) (hk1 : 1 ≤ k)
    (hk2 : k < (utf8EncodeChar c).length) :
    utf8Decode ((utf8EncodeChar c).take k) = [replChar] := by
  have hv := char_toNat_valid c
  by_cases h1 : c.toNat < 0x80
  · rw [utf8EncodeChar_one h1] at hk2
    simp at hk2
    omega
  · by_cases h2 : c.toNat < 0x800
    · rw [utf8EncodeChar_two (by omega) h2] at hk2 ⊢
      simp at hk2
      have hk : k = 1 := by omega
      subst hk
      show utf8Decode [0xC0 + c.toNat / 64] = [replChar]
      exact utf8Decode_single_lead (by omega) (by omega)
    · by_cases h3 : c.toNat < 0x10000
      · rw [utf8EncodeChar_three (by omega) h3] at hk2 ⊢
        simp at hk2
        rcases (show k = 1 ∨ k = 2 by omega) with hk | hk <;> subst hk
        · show utf8Decode [0xE0 + c.toNat / 4096] = [replChar]
          exact utf8Decode_single_lead (by omega) (by omega)
        · show utf8Decode
            [0xE0 + c.toNat / 4096, 0x80 + c.toNat / 64 % 64] = [replChar]
          exact utf8Decode_pair3 (by omega) (by omega)
            (cont3_enc (by omega) h3 (by omega))
      · have h4 : 0x10000 ≤ c.toNat := by omega
        have h5 : c.toNat < 0x110000 := by omega
        rw [utf8EncodeChar_four h4] at hk2 ⊢
        simp at hk2
        rcases (show k = 1 ∨ k = 2 ∨ k = 3 by omega) with hk | hk | hk <;>
          subst hk
        · show utf8Decode [0xF0 + c.toNat / 262144] = [replChar]
          exact utf8Decode_single_lead (by omega) (by omega)
        · show utf8Decode
            [0xF0 + c.toNat / 262144, 0x80 + c.toNat / 4096 % 64] = [replChar]
          exact utf8Decode_pair4 (by omega) (by omega) (cont4_enc h4 h5)
        · show utf8Decode [0xF0 + c.toNat / 262144, 0x80 + c.toNat / 4096 % 64,
            0x80 + c.toNat / 64 % 64] = [replChar]
          exact utf8Decode_triple4 (by omega) (by omega) (cont4_enc h4 h5)
            (contB_true (by omega))

lemma utf8Encode_cons (c : Char) (l : List Char) :
    utf8Encode (c :: l) = utf8EncodeChar c ++ utf8Encode l := by
  simp [utf8Encode]

lemma utf8Encode_append (a b : List Char) :
    utf8Encode (a ++ b) = utf8Encode a ++ utf8Encode b := by
  simp [utf8Encode]

lemma utf8Decode_encode_append : ∀ (l : List Char) (B : List Nat),
    utf8Decode (utf8Encode l ++ B) = l ++ utf8Decode B
  | [], _ => rfl
  | c :: l, B => by
    rw [utf8Encode_cons, List.append_assoc, utf8Decode_encodeChar,
      utf8Decode_encode_append l B]
    rfl

lemma utf8Decode_encode (l : List Char) : utf8Decode (utf8Encode l) = l := by
  have h := utf8Decode_encode_append l []
  simpa [show utf8Decode ([] : List Nat) = [] from rfl] using h

lemma utf8Encode_decode_take_length : ∀ (l : List Char) (k : Nat),
    (utf8Encode (utf8Decode ((utf8Encode l).take k))).length ≤ k + 2
  | [], k => by
    show (utf8Encode (utf8Decode (List.take k []))).length ≤ k + 2
    simp [utf8Encode, utf8Decode]
  | c :: l, k => by
    rw [utf8Encode_cons]
    rcases Nat.lt_or_ge k (utf8EncodeChar c).length with hk | hk
    · rcases Nat.eq_zero_or_pos k with rfl | hk1
      · simp [utf8Encode, utf8Decode]
      · rw [List.take_append_of_le_length (by omega),
          utf8Decode_take_partial c k hk1 hk]
        have h3 : (utf8Encode [replChar]).length = 3 := by decide
        omega
    · rw [List.take_append_eq_append_take,
        List.take_of_length_le hk,
        utf8Decode_encodeChar, utf8Encode_cons, List.length_append]
      have ih := utf8Encode_decode_take_length l (k - (utf8EncodeChar c).length)
      have hle := (utf8EncodeChar_length_pos c).1
      omega

/-- Counterexample to claim C4 as stated: truncating
`'a'` followed by 125,000 copies of the two-byte character `é`
(250,001 encoded bytes) to the 250,000-byte budget cuts the final `é`
in half; Node decodes the dangling lead byte to U+FFFD, whose three-byte
encoding pushes the result to 250,002 bytes — beyond the budget — and
the result is not a prefix of the original text. -/
theorem clampBytes_counterexample :
    250000 <
      (utf8Encode
        (clampBytes ('a' :: List.replicate 125000 'é') 250000)).length := by
  have herepl : ∀ n : Nat, (utf8Encode (List.replicate n 'é')).length = 2 * n := by
    intro n
    induction n with
    | zero => rfl
    | succ m ih =>
      rw [List.replicate_succ, utf8Encode_cons, List.length_append, ih,
        show (utf8EncodeChar 'é').length = 2 from by decide]
      omega
  have htake : ∀ (n k : Nat), k < n →
      (utf8Encode (List.replicate n 'é')).take (2 * k + 1) =
        utf8Encode (List.replicate k 'é') ++ [0xC3] := by
    intro n k
    induction k generalizing n with
    | zero =>
      intro hn
      match n, hn with
      | m + 1, _ =>
        rw [List.replicate_succ, utf8Encode_cons,
          show utf8EncodeChar 'é' = [0xC3, 0xA9] from by decide]
        rfl
    | succ j ih =>
      intro hn
      match n, hn with
      | m + 1, hn =>
        rw [List.replicate_succ, utf8Encode_cons,
          show utf8EncodeChar 'é' = [0xC3, 0xA9] from by decide,
          show ([0xC3, 0xA9] ++ utf8Encode (List.replicate m 'é')) =
            0xC3 :: 0xA9 :: utf8Encode (List.replicate m 'é') from rfl,
          show 2 * (j + 1) + 1 = (2 * j + 1) + 1 + 1 from by omega,
          List.take_succ_cons, List.take_succ_cons,
          ih m (by omega),
          show List.replicate (j + 1) 'é' = 'é' :: List.replicate j 'é' from
            List.replicate_succ ..,
          utf8Encode_cons,
          show utf8EncodeChar 'é' = [0xC3, 0xA9] from by decide]
        rfl
  have hlen : (utf8Encode ('a' :: List.replicate 125000 'é')).length = 250001 := by
    rw [utf8Encode_cons, List.length_append, herepl,
      show (utf8EncodeChar 'a').length = 1 from by decide]
  unfold clampBytes
  rw [if_neg (by omega)]
  rw [utf8Encode_cons,
    show utf8EncodeChar 'a' = [0x61] from by decide,
    show ([0x61] ++ utf8Encode (List.replicate 125000 'é')) =
      0x61 :: utf8Encode (List.replicate 125000 'é') from rfl,
    show (250000 : Nat) = 249999 + 1 from by omega,
    List.take_succ_cons,
    show (249999 : Nat) = 2 * 124999 + 1 from by omega,
    htake 125000 124999 (by omega),
    show (0x61 : Nat) :: (utf8Encode (List.replicate 124999 'é') ++ [0xC3]) =
      utf8Encode ('a' :: List.replicate 124999 'é') ++ [0xC3] from by
        rw [utf8Encode_cons, show utf8EncodeChar 'a' = [0x61] from by decide,
          List.append_assoc, List.singleton_append],
    utf8Decode_encode_append,
    show utf8Decode [0xC3] = [replChar] from by decide,
    utf8Encode_append, List.length_append, utf8Encode_cons,
    List.length_append, herepl,
    show (utf8EncodeChar 'a').length = 1 from by decide,
    show (utf8Encode [replChar]).length = 3 from by decide]
  omega

/-- Claim C4 amended: `clampBytes` at the 250,000-byte budget returns
the input unchanged when its UTF-8 encoding fits the budget; otherwise
it decodes the first 250,000 bytes, so when the cut lands on a
character boundary the result is exactly that prefix of the input (and
within budget), but when the cut splits a multi-byte character the
dangling bytes decode to a single U+FFFD whose re-encoding may exceed
the budget by up to two bytes (encoding length at most 250,002).  The
result always round-trip decodes to itself. -/
theorem clampBytes_spec (l : List Char) :
    (utf8Encode (clampBytes l 250000)).length ≤ 250002 ∧
    utf8Decode (utf8Encode (clampBytes l 250000)) = clampBytes l 250000 ∧
    ((utf8Encode l).length ≤ 250000 → clampBytes l 250000 = l) ∧
    (∀ p q, l = p ++ q → (utf8Encode p).length = 250000 →
      clampBytes l 250000 = p) := by
  refine ⟨?_, utf8Decode_encode _, ?_, ?_⟩
  · unfold clampBytes
    split
    next h => omega
    next h => exact utf8Encode_decode_take_length l 250000
  · intro h
    unfold clampBytes
    rw [if_pos h]
  · intro p q hpq hp
    unfold clampBytes
    split
    next h =>
      subst hpq
      rw [utf8Encode_append, List.length_append, hp] at h
      have hq2 : q = [] := by
        cases q with
        | nil => rfl
        | cons c q' =>
          rw [utf8Encode_cons, List.length_append] at h
          have h1 := (utf8EncodeChar_length_pos c).1
          omega
      simp [hq2]
    next h =>
      subst hpq
      rw [utf8Encode_append, List.take_append_eq_append_take, hp,
        Nat.sub_self, List.take_zero, List.append_nil,
        List.take_of_length_le (Nat.le_of_eq hp)]
      exact utf8Decode_encode p

/-- Witness for the amended claim C4: a short string is returned
unchanged, and an input whose 250,000-byte boundary falls exactly
between characters truncates to that exact prefix. -/
theorem clampBytes_spec_witness :
    clampBytes ("ab".data) 250000 = "ab".data ∧
    clampBytes (List.replicate 250000 'a' ++ ['é']) 250000 =
      List.replicate 250000 'a' := by
  have hrep : ∀ n : Nat, utf8Encode (List.replicate n 'a') =
      List.replicate n 0x61 := by
    intro n
    induction n with
    | zero => rfl
    | succ m ih =>
      rw [List.replicate_succ, utf8Encode_cons, ih,
        show utf8EncodeChar 'a' = [0x61] from by decide,
        List.replicate_succ]
      rfl
  refine ⟨(clampBytes_spec ("ab".data)).2.2.1 (by decide), ?_⟩
  refine (clampBytes_spec (List.replicate 250000 'a' ++ ['é'])).2.2.2
    (List.replicate 250000 'a') ['é'] rfl ?_
  rw [hrep, List.length_replicate]

/-- Claim C3: for every sequence of collected schema files, the Prompt
Composer orders any file whose path denotes the canonical primary schema
definition file (`db/schema.rb`) first in the concatenation, while all
other files keep their arrival order: the sorted sequence is exactly the
block of primary-schema files followed by the remaining files in their
original order. -/
theorem sortSchemaFiles_primary_first (l : List FileBlob) :
    sortSchemaFiles l =
      (l.filter (fun f => isPrimary f)).reverse ++
        l.filter (fun f => !isPrimary f) := by
  have h := sortSchemaFiles_aux l [] []
  simpa [sortSchemaFiles] using h

/-- Claim C7: every file returned by the Collector passed a successful
`stat` reporting a regular file of size strictly below 1,000,000 bytes
and a successful read; a path whose `stat` or read throws (modelled by
`none`) can therefore never contribute a returned file, and `collect`
is a total function (it never throws). -/
theorem collect_spec (globsCSV : List Char)
    (glob : List (List Char) → List (List Char))
    (stat : List Char → Option StatInfo)
    (readText : List Char → Option (List Char)) (b : FileBlob)
    (hb : b ∈ collect globsCSV glob stat readText) :
    b.size < 1000000 ∧ stat b.path = some ⟨true, b.size⟩ ∧
      readText b.path = some b.content := by
  unfold collect at hb
  simp only [List.mem_filterMap] at hb
  obtain ⟨p, _, hf⟩ := hb
  rcases hstat : stat p with _ | st
  · rw [hstat] at hf
    simp at hf
  · rw [hstat] at hf
    simp only [] at hf
    split at hf
    case isTrue hcond =>
      rcases hread : readText p with _ | c
      · rw [hread] at hf
        simp at hf
      · rw [hread] at hf
        simp only [Option.some.injEq] at hf
        obtain ⟨hfile, hsize⟩ := by
          simpa [Bool.and_eq_true, decide_eq_true_iff] using hcond
        subst hf
        exact ⟨hsize, by rw [hstat]; cases st; simp at hfile ⊢; exact hfile,
          by rw [hread]⟩
    case isFalse => simp at hf

/-- Witness for claim C7 at a concrete filesystem. -/
theorem collect_spec_witness :
    (⟨("a.rb".data), 3, ("abc".data)⟩ : FileBlob).size < 1000000 :=
  (collect_spec ("a.rb".data) (fun _ => [("a.rb".data)])
    (fun _ => some ⟨true, 3⟩) (fun _ => some ("abc".data))
    ⟨("a.rb".data), 3, ("abc".data)⟩ (by decide)).1

/-- Claim C8: whenever the Collector returns the empty set, the run ends
in the configuration error (`core.setFailed` with the glob advice) and
the generator endpoint is never invoked. -/
theorem empty_collect_config_error (globsCSV : List Char)
    (glob : List (List Char) → List (List Char))
    (stat : List Char → Option StatInfo)
    (readText : List Char → Option (List Char))
    (cur : Option (List Char)) (repo : List Char)
    (gen : List Char → Option (List Char))
    (h : collect globsCSV glob stat readText = []) :
    runModel (collect globsCSV glob stat readText) cur repo gen =
      ⟨.configError, false, false, true⟩ := by
  rw [h]
  rfl

/-- Witness for claim C8: a glob configuration matching no path. -/
theorem empty_collect_config_error_witness :
    runModel (collect ("db/*.rb".data) (fun _ => []) (fun _ => none)
        (fun _ => none)) none ("o/r".data) (fun _ => none) =
      ⟨.configError, false, false, true⟩ :=
  empty_collect_config_error _ _ _ _ _ _ _ (by decide)

/-- Claim C9: the composed prompt is a deterministic pure function of the
`PromptContext` (and the fixed byte budget baked into `buildPrompt`):
two invocations on equal inputs produce identical strings.  The force of
the claim is that `buildPrompt` is embeddable as a pure function at all:
it reads no ambient state and draws no randomness. -/
theorem buildPrompt_deterministic (ctx ctx' : PromptContext) (h : ctx = ctx') :
    buildPrompt ctx = buildPrompt ctx' := by
  rw [h]

/-- Witness for claim C9 at a concrete context. -/
theorem buildPrompt_deterministic_witness :
    buildPrompt ⟨("o/r".data), [], none⟩ = buildPrompt ⟨("o/r".data), [], none⟩ :=
  buildPrompt_deterministic _ _ rfl

lemma currentNormOf_some (s : List Char) :
    currentNormOf (some s) = normalizeERD s := by
  cases s <;> rfl

/-- Claim C1: whenever the cleaned generator output case-insensitively
equals the sentinel `NO_CHANGE`, the classifier answers `NoChange` with
no warning, regardless of the stored diagram, and the run (when it
reaches the generator at all) succeeds without the normalization-based
comparison influencing the outcome. -/
theorem sentinel_no_change (cur : Option (List Char)) (res : List Char)
    (sf : List FileBlob) (repo : List Char)
    (gen : List Char → Option (List Char))
    (hres : isSentinel res = true) :
    classifyChange cur res = (false, .NoChange) ∧
      (sf ≠ [] → cleanResponse (gen (buildPrompt ⟨repo, sf, cur⟩)) = res →
        runModel sf cur repo gen = ⟨.noChange, true, false, false⟩) := by
  have h1 : classifyChange cur res = (false, .NoChange) := by
    simp [classifyChange, hres]
  refine ⟨h1, fun hsf hclean => ?_⟩
  have hlen : ¬ sf.length = 0 := by
    simpa [List.length_eq_zero] using hsf
  simp only [runModel, if_neg hlen, hclean, h1]

/-- Witness for claim C1: a sentinel answer over a nonempty schema set
and an arbitrary stored diagram. -/
theorem sentinel_no_change_witness :
    runModel [⟨("db/schema.rb".data), 3, ("abc".data)⟩] (some ("x".data))
        ("o/r".data) (fun _ => some ("NO_CHANGE".data)) =
      ⟨.noChange, true, false, false⟩ :=
  (sentinel_no_change (some ("x".data)) ("NO_CHANGE".data)
    [⟨("db/schema.rb".data), 3, ("abc".data)⟩] ("o/r".data)
    (fun _ => some ("NO_CHANGE".data)) (by decide)).2 (by decide) (by decide)

/-- Claim C2: for a stored diagram and a non-sentinel generator output,
byte-equality of the two normalized forms yields `NoChange` even without
the sentinel; inequality yields `MaterialChange` carrying the original
(non-normalized, fence-stripped) output. -/
theorem layer2_classification (s res : List Char)
    (hres : isSentinel res = false) :
    (normalizeERD s = normalizeERD res →
      (classifyChange (some s) res).2 = .NoChange) ∧
    (normalizeERD s ≠ normalizeERD res →
      (classifyChange (some s) res).2 = .MaterialChange res) := by
  constructor
  · intro h
    simp [classifyChange, hres, currentNormOf_some, h]
  · intro h
    simp [classifyChange, hres, currentNormOf_some, h]

/-- Witness for claim C2: cosmetically equal texts reclassify to
`NoChange`; genuinely different texts classify as `MaterialChange`. -/
theorem layer2_classification_witness :
    (classifyChange (some ("A ".data)) ("a".data)).2 = .NoChange ∧
    (classifyChange (some ("A ".data)) ("b".data)).2 =
      .MaterialChange ("b".data) :=
  ⟨(layer2_classification ("A ".data) ("a".data) (by decide)).1 (by decide),
   (layer2_classification ("A ".data) ("b".data) (by decide)).2 (by decide)⟩

/-- Counterexample to claim C6 as stated: the output `"hello"` is not
the sentinel and does not begin with `erDiagram`, so a warning is
recorded, yet against the stored diagram `"Hello"` the Layer-2
normalized comparison succeeds and the classification is `NoChange`,
not `MaterialChange`. -/
theorem warning_material_counterexample :
    isSentinel ("hello".data) = false ∧
    startsWithL keyword (lowerStr ("hello".data)) = false ∧
    (classifyChange (some ("Hello".data)) ("hello".data)).1 = true ∧
    (classifyChange (some ("Hello".data)) ("hello".data)).2 = .NoChange ∧
    (classifyChange (some ("Hello".data)) ("hello".data)).2 ≠
      .MaterialChange ("hello".data) := by
  refine ⟨by decide, by decide, by decide, by decide, by decide⟩

/-- Claim C6 amended: for every non-sentinel output that does not begin
(case-insensitively) with `erDiagram`, a warning is recorded, and the
classification is `MaterialChange` carrying the output unless the
Layer-2 normalized forms of the stored diagram and the output are equal
(in which case it is `NoChange`); the output is never silently
dropped. -/
theorem warning_spec (cur : Option (List Char)) (res : List Char)
    (h1 : isSentinel res = false)
    (h2 : startsWithL keyword (lowerStr res) = false) :
    (classifyChange cur res).1 = true ∧
      (currentNormOf cur ≠ normalizeERD res →
        (classifyChange cur res).2 = .MaterialChange res) := by
  constructor
  · by_cases hn : currentNormOf cur = normalizeERD res <;>
      simp [classifyChange, h1, h2, hn]
  · intro hn
    simp [classifyChange, h1, hn]

/-- Witness for the amended claim C6: prose with no stored diagram. -/
theorem warning_spec_witness :
    (classifyChange none ("hello".data)).1 = true ∧
    (classifyChange none ("hello".data)).2 = .MaterialChange ("hello".data) :=
  ⟨(warning_spec none ("hello".data) (by decide) (by decide)).1,
   (warning_spec none ("hello".data) (by decide) (by decide)).2 (by decide)⟩

/-- Claim C10: when the cleaned generator output is empty (for example a
missing or empty completion content) and no stored diagram exists, the
classifier returns `NoChange` (both sides normalize to the empty string)
and the run exits successfully; the empty output does trigger the
keyword warning. -/
theorem empty_output_no_diagram (sf : List FileBlob) (repo : List Char)
    (gen : List Char → Option (List Char)) (hsf : sf ≠ [])
    (hres : cleanResponse (gen (buildPrompt ⟨repo, sf, none⟩)) = []) :
    runModel sf none repo gen = ⟨.noChange, true, true, false⟩ := by
  have hlen : ¬ sf.length = 0 := by
    simpa [List.length_eq_zero] using hsf
  have h1 : classifyChange none [] = (true, .NoChange) := by decide
  simp only [runModel, if_neg hlen, hres, h1]

/-- Witness for claim C10: a completion with a missing `content`
field. -/
theorem empty_output_no_diagram_witness :
    runModel [⟨("a.rb".data), 1, ("x".data)⟩] none ("o/r".data)
        (fun _ => none) =
      ⟨.noChange, true, true, false⟩ :=
  empty_output_no_diagram [⟨("a.rb".data), 1, ("x".data)⟩] ("o/r".data)
    (fun _ => none) (by decide) (by decide)

end Merdmaid
